import Mathlib
/-!
Verification development for the `quvel-ui-tenancy` package (a multi-tenancy
plugin for a server-side-rendering pipeline).

The TypeScript sources are shallowly embedded: JavaScript runtime values are
modelled by the inductive `JVal` (ASCII strings, integers instead of floats;
no claim here depends on float behavior), JavaScript objects by association
lists in insertion order, thrown exceptions by `Except`, and the ambient
clock (`Date.now()`) by an explicit `Nat` parameter.

Embedded components and their sources:
- `filterConfigByVisibility`, `filterPublicConfig`, `isVisibilityAllowed`
  from `src/cookies.ts`;
- `createTenantXsrfCookieName`, `createTenantSessionCookieName` from
  `src/cookies.ts`;
- `TenantCacheService.get` / `.set` from `src/config/env.ts`;
- `TenantResolver.extractIdentifier` and its strategy helpers from
  `src/services/TenantResolver.ts`;
- `TenantRequestHooks.resolveTenant`, `enrichWindowBag` (null-tenant path)
  and `handleTenantNotFound` from `src/services/TenantRequestHooks.ts`.
-/

/-- JavaScript runtime values. Objects are association lists of fields in
insertion order (JS objects have unique keys; lookups take the first match,
which coincides with JS semantics on well-formed objects). Numbers are
modelled as integers. -/
inductive JVal : Type where
  | vnull : JVal
  | vundef : JVal
  | vbool : Bool → JVal
  | vnum : Int → JVal
  | vstr : String → JVal
  | varr : List JVal → JVal
  | vobj : List (String × JVal) → JVal

/-- JavaScript truthiness: `null`, `undefined`, `false`, `0` and `""` are
falsy; every array and object is truthy. -/
def truthy : JVal → Bool
  | .vnull => false
  | .vundef => false
  | .vbool b => b
  | .vnum n => n != 0
  | .vstr s => s ≠ ""
  | .varr _ => true
  | .vobj _ => true

/-- JavaScript `a || b`: `a` when truthy, else `b`. -/
def jsOrVal (a b : JVal) : JVal :=
  if truthy a then a else b

/-- JavaScript property read `obj[key]` on an object: the stored value, or
`undefined` when the key is absent. -/
def getProp : List (String × JVal) → String → JVal
  | [], _ => .vundef
  | (k, v) :: rest, key => if k = key then v else getProp rest key

/-- JavaScript `x ?? null` (nullish coalescing against `null`). -/
def jsCoalesceNull : JVal → JVal
  | .vnull => .vnull
  | .vundef => .vnull
  | v => v

/-- JavaScript `String.prototype.toLowerCase` for the ASCII strings used as
visibility labels (per-character ASCII lowercasing). -/
def jsToLowerCase (s : String) : String :=
  String.mk (s.data.map Char.toLower)

mutual

/-- JavaScript `ToString` as used by computed property access `levels[x]`:
strings unchanged, primitives printed, arrays joined with `","` (with `null`
and `undefined` elements printed as empty), plain objects as
`"[object Object]"`. -/
def jsToString : JVal → String
  | .vnull => "null"
  | .vundef => "undefined"
  | .vbool true => "true"
  | .vbool false => "false"
  | .vnum n => toString n
  | .vstr s => s
  | .varr xs => jsArrayJoin xs
  | .vobj _ => "[object Object]"

/-- The `Array.prototype.toString` is `join(",")`. -/
def jsArrayJoin : List JVal → String
  | [] => ""
  | [x] => jsElemString x
  | x :: y :: xs => jsElemString x ++ "," ++ jsArrayJoin (y :: xs)

/-- Array `join` prints `null`/`undefined` elements as the empty string. -/
def jsElemString : JVal → String
  | .vnull => ""
  | .vundef => ""
  | v => jsToString v

end

/-- The three visibility labels of `ConfigVisibility` in `src/types.ts`
(`'public' | 'protected' | 'private'`; the TS identifiers are Lean
keywords, hence the `Vis` suffix). -/
inductive ConfigVisibility : Type where
  | publicVis : ConfigVisibility
  | protectedVis : ConfigVisibility
  | privateVis : ConfigVisibility
deriving DecidableEq

/-- The `levels` record of `isVisibilityAllowed` in `src/cookies.ts`, read at
a computed string key: `{ public: 3, protected: 2, private: 1 }`; any other
key yields `undefined` (`none`). -/
def visibilityLevels (key : String) : Option Nat :=
  if key = "public" then some 3
  else if key = "protected" then some 2
  else if key = "private" then some 1
  else none

/-- The rank of the statically typed `minVisibility` argument (always one of
the three labels). -/
def minLevelNat : ConfigVisibility → Nat
  | .publicVis => 3
  | .protectedVis => 2
  | .privateVis => 1

/-- The `isVisibilityAllowed` from `src/cookies.ts`: `levels[fieldVisibility] >=
levels[minVisibility]`. The field label is an arbitrary runtime value (the
source casts with `as`), so the lookup goes through JS property-key
coercion; `undefined >= n` is `false` in JS, hence an unrecognized key is
never allowed. -/
def isVisibilityAllowed (fieldVisibility : JVal) (minVisibility : ConfigVisibility) : Bool :=
  match visibilityLevels (jsToString fieldVisibility) with
  | some lf => decide (minLevelNat minVisibility ≤ lf)
  | none => false

/-- The ternary `typeof visValue === 'string' ? visValue.toLowerCase() :
visValue` in `filterConfigByVisibility`. -/
def lowerIfString : JVal → JVal
  | .vstr s => .vstr (jsToLowerCase s)
  | v => v

/-- The full leaf-label normalization `(typeof visValue === 'string' ?
visValue.toLowerCase() : visValue) as ConfigVisibility || 'private'`. -/
def leafVis (visValue : JVal) : JVal :=
  jsOrVal (lowerIfString visValue) (.vstr "private")

/-- The `Object.entries`: fields of an object, indexed elements of an array,
indexed characters of a string, empty for other primitives. (The source
only reaches this on a truthy value or on `{}`.) -/
def jsEntries : JVal → List (String × JVal)
  | .vobj fs => fs
  | .varr xs => (List.range xs.length).zip xs |>.map (fun p => (toString p.1, p.2))
  | .vstr s => (List.range s.data.length).zip (s.data.map (fun c => JVal.vstr (String.mk [c])))
      |>.map (fun p => (toString p.1, p.2))
  | _ => []

/-- The inner `filterByVisibilityKeys` of `filterConfigByVisibility` in
`src/cookies.ts`: iterate the entries of the visibility tree; a nested
(non-null, non-array) object value recurses into the matching config
sub-object and keeps the key only when the recursion is non-empty; any
other value is a leaf label, normalized by `leafVis` and compared by
`isVisibilityAllowed`, including `configData[key] ?? null` on success. -/
def filterByVisibilityKeys (minVisibility : ConfigVisibility) :
    List (String × JVal) → List (String × JVal) → List (String × JVal)
  | [], _ => []
  | (key, visValue) :: rest, configData =>
    match visValue with
    | .vobj visChild =>
      (match getProp configData key with
       | .vobj childConfig =>
         let filteredChild := filterByVisibilityKeys minVisibility visChild childConfig
         if filteredChild.isEmpty then
           filterByVisibilityKeys minVisibility rest configData
         else
           (key, .vobj filteredChild) :: filterByVisibilityKeys minVisibility rest configData
       | _ => filterByVisibilityKeys minVisibility rest configData)
    | _ =>
      if isVisibilityAllowed (leafVis visValue) minVisibility then
        (key, jsCoalesceNull (getProp configData key)) :: filterByVisibilityKeys minVisibility rest configData
      else
        filterByVisibilityKeys minVisibility rest configData
termination_by vis _ => sizeOf vis
decreasing_by
  all_goals simp_wf
  all_goals omega

/-- The `filterConfigByVisibility` from `src/cookies.ts`. The config argument is
a JS object (its declared type `Record<string, any>`); the visibility
argument is an arbitrary runtime value, defaulted to `{}` when falsy
(`visibility || {}`). The `minVisibility` default `'public'` is supplied by
callers here. -/
def filterConfigByVisibility (config : List (String × JVal)) (visibility : JVal)
    (minVisibility : ConfigVisibility) : List (String × JVal) :=
  filterByVisibilityKeys minVisibility (jsEntries (jsOrVal visibility (.vobj []))) config

/-- The test `typeof x === 'object'` (true for `null`, arrays and plain objects). -/
def jsTypeofObject : JVal → Bool
  | .vnull => true
  | .varr _ => true
  | .vobj _ => true
  | _ => false

/-- The `Object.keys(x).length` for the values on which the source reaches it
(truthy values of `typeof 'object'`, i.e. arrays and plain objects). -/
def jsKeysLength : JVal → Nat
  | .vobj fs => fs.length
  | .varr xs => xs.length
  | _ => 0

/-- The `filterPublicConfig` from `src/cookies.ts`: throws when the visibility
argument is falsy, or is of object type with no keys; otherwise filters at
minimum level `public`. -/
def filterPublicConfig (config : List (String × JVal)) (visibility : JVal) :
    Except String (List (String × JVal)) :=
  if !truthy visibility || (jsTypeofObject visibility && jsKeysLength visibility == 0) then
    .error "Visibility metadata required to filter public fields"
  else
    .ok (filterConfigByVisibility config visibility .publicVis)

/-! ## Coverage of the filter output by the visibility tree

`coveredBy out vis` states that every key of `out` is a key of `vis` and
that, whenever the visibility value at that key is a nested object, the
output value is an object recursively covered by it.  (At a leaf visibility
value the config value is included verbatim, so nothing is demanded there.)
`strictCoveredBy` additionally demands that keys nested inside an output
object always correspond to visibility keys, even below a leaf label. -/
mutual

/-- Every entry of the first list is covered by the visibility tree given as
second list (recursively below nested visibility objects). -/
def coveredBy : List (String × JVal) → List (String × JVal) → Bool
  | [], _ => true
  | (k, v) :: out, vis => findCover vis k v && coveredBy out vis
termination_by out _ => (sizeOf out, 0)
decreasing_by
  all_goals simp_wf
  all_goals omega

/-- Some entry of the visibility tree has key `k` and covers the value `v`. -/
def findCover : List (String × JVal) → String → JVal → Bool
  | [], _, _ => false
  | (k1, vv) :: vrest, k, v => (k1 == k && coverMatch vv v) || findCover vrest k v
termination_by vl _ v => (sizeOf v + 1, sizeOf vl)
decreasing_by
  all_goals simp_wf
  all_goals omega

/-- A visibility value `vv` covers an output value `v`: a nested visibility
object must cover an output object recursively; a leaf covers anything. -/
def coverMatch : JVal → JVal → Bool
  | .vobj vfs, .vobj ofs => coveredBy ofs vfs
  | .vobj _, _ => false
  | _, _ => true
termination_by vv v => (sizeOf v, sizeOf vv)
decreasing_by
  all_goals simp_wf
  all_goals omega

end

mutual

/-- Coverage in the literal sense of the claim: every key at every nesting
depth of the first list is a key of the visibility tree at the
corresponding position (so an output object below a leaf visibility value
is only allowed when it is empty). -/
def strictCoveredBy : List (String × JVal) → List (String × JVal) → Bool
  | [], _ => true
  | (k, v) :: out, vis => findStrict vis k v && strictCoveredBy out vis
termination_by out _ => (sizeOf out, 0)
decreasing_by
  all_goals simp_wf
  all_goals omega

/-- Some entry of the visibility tree has key `k` and strictly covers `v`. -/
def findStrict : List (String × JVal) → String → JVal → Bool
  | [], _, _ => false
  | (k1, vv) :: vrest, k, v => (k1 == k && strictMatch vv v) || findStrict vrest k v
termination_by vl _ v => (sizeOf v + 1, sizeOf vl)
decreasing_by
  all_goals simp_wf
  all_goals omega

/-- Strict coverage of an output value by a visibility value: any key inside
an output object must again be a visibility key. -/
def strictMatch : JVal → JVal → Bool
  | .vobj vfs, .vobj ofs => strictCoveredBy ofs vfs
  | _, .vobj ofs => ofs.isEmpty
  | _, _ => true
termination_by vv v => (sizeOf v, sizeOf vv)
decreasing_by
  all_goals simp_wf
  all_goals omega

end

/-- Rank assigned to a leaf visibility label by the (amended) specification:
a recognized label — compared after lowercasing — ranks `private(1) <
protected(2) < public(3)`; an empty/falsy or missing label defaults to
`private`; an unrecognized truthy label has no rank at all. -/
def leafRank (visValue : JVal) : Option Nat :=
  match lowerIfString visValue with
  | .vstr t =>
    if t = "public" then some 3
    else if t = "protected" then some 2
    else if t = "private" then some 1
    else if t = "" then some 1
    else none
  | w => if truthy w then none else some 1

mutual

/-- Replace every string leaf label of a visibility value through `f`
(nested visibility objects are mapped recursively; arrays and other leaves
are left untouched). -/
def mapLeafCase (f : String → String) : JVal → JVal
  | .vstr s => .vstr (f s)
  | .vobj fs => .vobj (mapLeafCaseFields f fs)
  | v => v
termination_by v => sizeOf v
decreasing_by
  all_goals simp_wf

/-- Field-wise `mapLeafCase`. -/
def mapLeafCaseFields (f : String → String) : List (String × JVal) → List (String × JVal)
  | [] => []
  | (k, v) :: rest => (k, mapLeafCase f v) :: mapLeafCaseFields f rest
termination_by l => sizeOf l
decreasing_by
  all_goals simp_wf
  all_goals omega

end

/-! ## Cookie name builders (`src/cookies.ts`) -/
/-- The `{ name?: string }` boxes of the `CookieConfig` interface. -/
structure NameSetting where
  name : Option String
deriving DecidableEq

/-- The `CookieConfig` interface: optional `xsrf` and `session` name boxes
(the cookie builders read `tenant.config` through this shape). -/
structure CookieConfig where
  xsrf : Option NameSetting
  session : Option NameSetting
deriving DecidableEq

/-- The `PublicTenantData` as consumed by the cookie-name builders (`id` and the
cookie-relevant part of `config`). -/
structure PublicTenantData where
  id : String
  name : String
  identifier : String
  config : CookieConfig
deriving DecidableEq

/-- JS truthiness of an optional string (`undefined` and `""` are falsy). -/
def truthyStr : Option String → Bool
  | some s => s ≠ ""
  | none => false

/-- The `createTenantXsrfCookieName` from `src/cookies.ts`: the tenant argument
`tenant?: PublicTenantData | null` is an `Option`; `tenant?.config?.xsrf?.name`
is the chained optional access. -/
def createTenantXsrfCookieName (tenant : Option PublicTenantData) : String :=
  let customName := (tenant.bind (fun t => t.config.xsrf)).bind (fun x => x.name)
  if truthyStr customName then
    customName.getD ""
  else if truthyStr (tenant.map (fun t => t.id)) then
    "tenant_" ++ (tenant.map (fun t => t.id)).getD "" ++ "_xsrf"
  else
    "XSRF-TOKEN"

/-- The `createTenantSessionCookieName` from `src/cookies.ts`. -/
def createTenantSessionCookieName (tenant : Option PublicTenantData) : String :=
  let customName := (tenant.bind (fun t => t.config.session)).bind (fun x => x.name)
  if truthyStr customName then
    customName.getD ""
  else if truthyStr (tenant.map (fun t => t.id)) then
    "tenant_" ++ (tenant.map (fun t => t.id)).getD "" ++ "_session"
  else
    "laravel_session"

/-! ## Tenant records and the cache (`src/config/env.ts`) -/
/-- The `Tenant` model of `src/types.ts`; `parent` is a nullable embedded
parent record, hence an inductive rather than a structure. -/
inductive Tenant : Type where
  | mk : (id : String) → (name : String) → (identifier : String) →
      (parent_id : Option String) → (is_active : Bool) → (is_internal : Bool) →
      (config : List (String × JVal)) → (created_at : String) → (updated_at : String) →
      (parent : Option Tenant) → Tenant

/-- The `id` field of a tenant. -/
def Tenant.id : Tenant → String
  | .mk i _ _ _ _ _ _ _ _ _ => i

/-- The `identifier` field of a tenant. -/
def Tenant.identifier : Tenant → String
  | .mk _ _ i _ _ _ _ _ _ _ => i

/-- The `CacheMode` from `src/services/TenantCacheService.ts`. -/
inductive CacheMode : Type where
  | preload : CacheMode
  | lazy : CacheMode
  | disabled : CacheMode
deriving DecidableEq

/-- An expiration instant: a finite millisecond timestamp or `Infinity`. -/
inductive Expiry : Type where
  | fin : Nat → Expiry
  | inf : Expiry

/-- A `CacheEntry` (`{ tenant, expiresAt }`). -/
structure CacheEntry where
  tenant : Tenant
  expiresAt : Expiry

/-- The `Map.prototype.get`: the first (unique) entry with the key. -/
def mapGet {α : Type} : List (String × α) → String → Option α
  | [], _ => none
  | (k, v) :: rest, key => if k = key then some v else mapGet rest key

/-- The `Map.prototype.set`: replace the entry in place, else append. -/
def mapSet {α : Type} : List (String × α) → String → α → List (String × α)
  | [], key, v => [(key, v)]
  | (k, w) :: rest, key, v =>
    if k = key then (k, v) :: rest else (k, w) :: mapSet rest key v

/-- The `Map.prototype.delete`: remove the entry with the key. -/
def mapDelete {α : Type} : List (String × α) → String → List (String × α)
  | [], _ => []
  | (k, w) :: rest, key => if k = key then rest else (k, w) :: mapDelete rest key

/-- The comparison `Date.now() > expiresAt` (`now > Infinity` is false). -/
def expiryPast (now : Nat) : Expiry → Bool
  | .fin t => decide (t < now)
  | .inf => false

/-- The state of a `TenantCacheService` (`src/config/env.ts`): mode, the
constructor's `ttlSeconds`, and the backing `Map`.  The endpoint prefix is
used only by the network preload, which is a collaborator boundary here and
not modelled. -/
structure TenantCacheService where
  mode : CacheMode
  ttlSeconds : Nat
  cache : List (String × CacheEntry)

/-- The assignment `this.ttl = ttlSeconds * 1000` from the constructor. -/
def TenantCacheService.ttl (s : TenantCacheService) : Nat :=
  s.ttlSeconds * 1000

/-- The `TenantCacheService.get`, with `Date.now()` passed explicitly: `disabled`
always misses; a missing entry misses; under `lazy` an expired entry is
deleted and missed; otherwise the stored tenant is returned. -/
def TenantCacheService.get (s : TenantCacheService) (now : Nat) (key : String) :
    Option Tenant × TenantCacheService :=
  if s.mode = .disabled then (none, s)
  else
    match mapGet s.cache key with
    | none => (none, s)
    | some entry =>
      if s.mode = .lazy ∧ expiryPast now entry.expiresAt = true then
        (none, { s with cache := mapDelete s.cache key })
      else
        (some entry.tenant, s)

/-- The `TenantCacheService.set`, with `Date.now()` passed explicitly: a no-op
under `disabled`; expiration `Infinity` under `preload`, else
`now + this.ttl`. -/
def TenantCacheService.set (s : TenantCacheService) (now : Nat) (key : String) (tenant : Tenant) :
    TenantCacheService :=
  if s.mode = .disabled then s
  else
    let expiresAt := if s.mode = .preload then Expiry.inf else Expiry.fin (now + s.ttl)
    { s with cache := mapSet s.cache key ⟨tenant, expiresAt⟩ }

/-! ## Identifier extraction (`src/services/TenantResolver.ts`) -/
/-- JS `String.prototype.split` with a single-character separator, on the
character list. -/
def splitChars (sep : Char) : List Char → List (List Char)
  | [] => [[]]
  | c :: cs =>
    let r := splitChars sep cs
    if c = sep then [] :: r
    else
      match r with
      | g :: gs => (c :: g) :: gs
      | [] => [[c]]

/-- JS `s.split(sep)` for a single-character separator (always non-empty;
`"".split(sep) = [""]`). -/
def jsSplit (s : String) (sep : Char) : List String :=
  (splitChars sep s.data).map String.mk

/-- JS `a || b` on an optional number (`0`, like `undefined`, falls back). -/
def jsOrInt (v : Option Int) (d : Int) : Int :=
  match v with
  | some n => if n = 0 then d else n
  | none => d

/-- JS `a || b` on an optional string (`""`, like `undefined`, falls back). -/
def jsOrStr (v : Option String) (d : String) : String :=
  match v with
  | some s => if s = "" then d else s
  | none => d

/-- The request data consumed by identifier extraction: the
`x-forwarded-host` and `host` headers (absent = `undefined`), the resolved
`req.hostname`, `req.path`, `req.url`, and the remaining headers (keys
stored lowercased, as Node does). -/
structure Req where
  xForwardedHost : Option String
  host : Option String
  hostname : String
  path : String
  url : String
  headers : List (String × String)

/-- The `req.get(name)`: case-insensitive header lookup. -/
def reqGetHeader (headers : List (String × String)) (name : String) : Option String :=
  match headers with
  | [] => none
  | (k, v) :: rest =>
    if jsToLowerCase k = jsToLowerCase name then some v else reqGetHeader rest name

/-- The `TenantResolver.extractDomain`: forwarded host if truthy, else host,
else `req.hostname`; port suffix stripped by `split(':')[0]`. -/
def extractDomain (req : Req) : String :=
  let fwd := req.xForwardedHost.getD ""
  if fwd ≠ "" then (jsSplit fwd ':').headD ""
  else
    let h := req.host.getD ""
    if h ≠ "" then (jsSplit h ':').headD ""
    else req.hostname

/-- The `TenantResolver.extractSubdomain`: split the derived domain on `.`;
absent when at most two labels, else the label at `level` when
`0 ≤ level < labels − 2`. -/
def extractSubdomain (req : Req) (level : Int) : Option String :=
  let hostname := extractDomain req
  let parts := jsSplit hostname '.'
  if parts.length ≤ 2 then none
  else if 0 ≤ level ∧ level < (parts.length : Int) - 2 then
    some (parts.getD level.toNat "")
  else none

/-- The `TenantResolver.extractFromPath`: split `req.path || req.url` on `/`,
drop empty segments, take segment `index` when in range. -/
def extractFromPath (req : Req) (index : Int) : Option String :=
  let path := if req.path ≠ "" then req.path else req.url
  let segments := (jsSplit path '/').filter (fun s => s.length > 0)
  if 0 ≤ index ∧ index < (segments.length : Int) then
    some (segments.getD index.toNat "")
  else none

/-- The `TenantResolver.extractFromHeader`: `req.get(headerName) || null`. -/
def extractFromHeader (req : Req) (headerName : String) : Option String :=
  match reqGetHeader req.headers headerName with
  | some v => if v = "" then none else some v
  | none => none

/-- The `TenantResolutionStrategy` from `src/types.ts`. -/
inductive TenantResolutionStrategy : Type where
  | domain : TenantResolutionStrategy
  | subdomain : TenantResolutionStrategy
  | path : TenantResolutionStrategy
  | header : TenantResolutionStrategy
deriving DecidableEq

/-- The `TenantStrategyConfig` from `src/types.ts`. -/
structure TenantStrategyConfig where
  strategy : TenantResolutionStrategy
  headerName : Option String
  pathIndex : Option Int
  subdomainLevel : Option Int
deriving DecidableEq

/-- The `TenantResolver.extractIdentifier`: dispatch on the strategy, using the
source's `|| 0` / `|| 'X-Tenant-ID'` defaults. -/
def extractIdentifier (cfg : TenantStrategyConfig) (req : Req) : Option String :=
  match cfg.strategy with
  | .domain => some (extractDomain req)
  | .subdomain => extractSubdomain req (jsOrInt cfg.subdomainLevel 0)
  | .path => extractFromPath req (jsOrInt cfg.pathIndex 0)
  | .header => extractFromHeader req (jsOrStr cfg.headerName "X-Tenant-ID")

/-! ## Per-request resolution (`TenantRequestHooks.resolveTenant`) -/
/-- A thrown JS error at the collaborator boundary. -/
structure JsError where
  message : String
deriving DecidableEq

/-- The result shape of `TenantResolver.resolveTenantByIdentifier`:
`{ tenant: Tenant | null; error?: Error }`. -/
structure ResolveResult where
  tenant : Option Tenant
  error : Option JsError

/-- The collaborators of `resolveTenant`, given as oracles for one request:
each call may return normally or throw (`Except.error`).  The logger is a
boundary collaborator whose calls are not modelled. -/
structure Collaborators where
  extractIdentifier : Except JsError (Option String)
  cacheGet : String → Except JsError (Option Tenant)
  fetchTenant : String → Except JsError ResolveResult
  cacheSet : String → Tenant → Except JsError Unit

/-- Observable collaborator invocations of one `resolveTenant` run. -/
inductive ResolveEvent : Type where
  | cacheGetEv : String → ResolveEvent
  | fetchEv : String → ResolveEvent
  | cacheSetEv : String → ResolveEvent
deriving DecidableEq

/-- The body of `TenantRequestHooks.resolveTenant` (the content of its
`try` block), together with the trace of collaborator invocations:
extract the identifier (falsy ⇒ null), consult the cache (hit ⇒ done),
fetch (`result.error` ⇒ null), store a found tenant, return it. -/
def resolveTenantBody (c : Collaborators) : Except JsError (Option Tenant) × List ResolveEvent :=
  match c.extractIdentifier with
  | .error e => (.error e, [])
  | .ok identOpt =>
    match identOpt with
    | none => (.ok none, [])
    | some ident =>
      if ident = "" then (.ok none, [])
      else
        match c.cacheGet ident with
        | .error e => (.error e, [.cacheGetEv ident])
        | .ok (some t) => (.ok (some t), [.cacheGetEv ident])
        | .ok none =>
          match c.fetchTenant ident with
          | .error e => (.error e, [.cacheGetEv ident, .fetchEv ident])
          | .ok result =>
            match result.error with
            | some _ => (.ok none, [.cacheGetEv ident, .fetchEv ident])
            | none =>
              match result.tenant with
              | some t =>
                (match c.cacheSet ident t with
                 | .error e => (.error e, [.cacheGetEv ident, .fetchEv ident, .cacheSetEv ident])
                 | .ok _ => (.ok (some t), [.cacheGetEv ident, .fetchEv ident, .cacheSetEv ident]))
              | none => (.ok none, [.cacheGetEv ident, .fetchEv ident])

/-- The `TenantRequestHooks.resolveTenant`: the body wrapped in the `try/catch`
whose `catch` logs and returns `null`.  An `Except.error` outcome would be
an exception escaping to the caller. -/
def resolveTenant (c : Collaborators) : Except JsError (Option Tenant) :=
  match (resolveTenantBody c).1 with
  | .error _ => .ok none
  | .ok t => .ok t

/-! ## Tenant-not-found handling (`TenantRequestHooks`) -/
/-- An error thrown by the not-found dispositions (`code` and `url` are the
extra fields the source attaches). -/
structure ThrownError where
  message : String
  code : Option Int
  url : Option String
deriving DecidableEq

/-- The `TenantNotFoundAction` from `src/services/types.ts`; the `custom`
handler function is passed separately to keep the action comparable. -/
inductive TenantNotFoundAction : Type where
  | notFound404 : TenantNotFoundAction
  | redirect : String → Option Int → TenantNotFoundAction
  | render : TenantNotFoundAction
  | custom : TenantNotFoundAction
deriving DecidableEq

/-- The per-request `quvelContext`: start time, the tenant field
(`none` = field never written, `some none` = explicitly `null`), and the
evolving `appConfig` view. -/
structure QuvelCtx where
  startTime : Nat
  tenant : Option (Option Tenant)
  appConfig : Option (List (String × JVal))

/-- The request-context view: `req.quvelContext` is lazily created. -/
structure ReqCtx where
  quvelContext : Option QuvelCtx

/-- The client payload view (`WindowBag`): named window values. -/
def WinBag : Type :=
  List (String × JVal)

/-- The `TenantRequestHooks.handleTenantNotFound` (with `Date.now()` explicit
and the `custom` handler passed as an oracle that may mutate the request
context or throw): `404` and `redirect` throw errors carrying code (and
`action.code || 302`) and URL; `render` initializes `quvelContext` if
needed and sets its tenant field to explicit `null`; `custom` invokes the
handler when present.  An absent action defaults to `404`
(`this.config.onTenantNotFound || { type: '404' }`). -/
def handleTenantNotFound (now : Nat) (action : Option TenantNotFoundAction)
    (handler : Option (ReqCtx → Except ThrownError ReqCtx)) (req : ReqCtx) :
    Except ThrownError ReqCtx :=
  match action.getD .notFound404 with
  | .notFound404 => .error ⟨"Tenant not found", some 404, none⟩
  | .redirect url code =>
    .error ⟨"Redirecting to tenant not found page", some (jsOrInt code 302), some url⟩
  | .render =>
    let ctx : QuvelCtx :=
      match req.quvelContext with
      | none => { startTime := now, tenant := none, appConfig := none }
      | some c => c
    .ok { quvelContext := some { ctx with tenant := some none } }
  | .custom =>
    match handler with
    | some h => h req
    | none => .ok req

/-- The null-tenant branch of `TenantRequestHooks.enrichWindowBag`: when
`onTenantNotFound?.type === 'render'` it returns immediately; otherwise it
delegates to `handleTenantNotFound` (which never receives the bag) and
returns. -/
def enrichWindowBagNullTenant (now : Nat) (action : Option TenantNotFoundAction)
    (handler : Option (ReqCtx → Except ThrownError ReqCtx)) (req : ReqCtx) (bag : WinBag) :
    Except ThrownError (ReqCtx × WinBag) :=
  if action = some .render then .ok (req, bag)
  else (handleTenantNotFound now action handler req).map (fun r => (r, bag))

theorem findCover_mono (e : String × JVal) (vl : List (String × JVal)) (k : String) (v : JVal)
    (h : findCover vl k v = true) : findCover (e :: vl) k v = true := by
  cases e with
  | mk k1 vv => simp only [findCover, h, Bool.or_true]

theorem coveredBy_mono (out : List (String × JVal)) (e : String × JVal)
    (vis : List (String × JVal)) (h : coveredBy out vis = true) :
    coveredBy out (e :: vis) = true := by
  induction out with
  | nil => simp only [coveredBy]
  | cons p out ih =>
    cases p with
    | mk k v =>
      simp only [coveredBy, Bool.and_eq_true] at h ⊢
      exact ⟨findCover_mono e vis k v h.1, ih h.2⟩

theorem coverMatch_of_not_vobj (vv v : JVal)
    (h : ∀ fs, vv = JVal.vobj fs → False) : coverMatch vv v = true := by
  cases vv with
  | vobj fs => exact absurd rfl (h fs)
  | vnull => rw [coverMatch] <;> simp
  | vundef => rw [coverMatch] <;> simp
  | vbool b => rw [coverMatch] <;> simp
  | vnum n => rw [coverMatch] <;> simp
  | vstr s => rw [coverMatch] <;> simp
  | varr xs => rw [coverMatch] <;> simp

/-- The output of `filterByVisibilityKeys` is covered by the visibility tree
it was driven by. -/
theorem filter_coveredBy (minVisibility : ConfigVisibility) (vis cfg : List (String × JVal)) :
    coveredBy (filterByVisibilityKeys minVisibility vis cfg) vis = true := by
  induction vis, cfg using filterByVisibilityKeys.induct minVisibility with
  | case1 cfg => simp only [filterByVisibilityKeys, coveredBy]
  | case2 key rest configData visChild childConfig hget fc hempty ihchild ihrest =>
    simp only [filterByVisibilityKeys, hget, hempty, if_true]
    exact coveredBy_mono _ _ _ ihrest
  | case3 key rest configData visChild childConfig hget fc hnonempty ihchild ihrest =>
    simp only [filterByVisibilityKeys, hget]
    rw [if_neg hnonempty]
    simp only [coveredBy, findCover, Bool.and_eq_true, Bool.or_eq_true]
    refine ⟨Or.inl ⟨by simp, ?_⟩, coveredBy_mono _ _ _ ihrest⟩
    rw [coverMatch]
    exact ihchild
  | case4 key rest configData visChild hnotobj ihrest =>
    have heq : filterByVisibilityKeys minVisibility ((key, JVal.vobj visChild) :: rest) configData
        = filterByVisibilityKeys minVisibility rest configData := by
      rw [filterByVisibilityKeys.eq_2]
      cases hg : getProp configData key with
      | vobj cc => exact (hnotobj cc hg).elim
      | vnull => rfl
      | vundef => rfl
      | vbool b => rfl
      | vnum n => rfl
      | vstr s => rfl
      | varr xs => rfl
    rw [heq]
    exact coveredBy_mono _ _ _ ihrest
  | case5 key visValue rest configData hallow hnotobj ihrest =>
    rw [filterByVisibilityKeys.eq_3 _ _ _ _ _ hnotobj, if_pos hallow]
    simp only [coveredBy, findCover, Bool.and_eq_true, Bool.or_eq_true]
    exact ⟨Or.inl ⟨by simp, coverMatch_of_not_vobj _ _ hnotobj⟩, coveredBy_mono _ _ _ ihrest⟩
  | case6 key visValue rest configData hdisallow hnotobj ihrest =>
    rw [filterByVisibilityKeys.eq_3 _ _ _ _ _ hnotobj, if_neg hdisallow]
    exact coveredBy_mono _ _ _ ihrest

/-- On string or missing labels, the code's admission test agrees with the
specification rank of `leafRank`. -/
theorem leafAllowed_iff_rank (visValue : JVal) (m : ConfigVisibility)
    (hshape : (∃ s, visValue = .vstr s) ∨ visValue = .vnull ∨ visValue = .vundef) :
    (isVisibilityAllowed (leafVis visValue) m = true ↔
      ∃ r, leafRank visValue = some r ∧ minLevelNat m ≤ r) := by
  rcases hshape with ⟨s, rfl⟩ | rfl | rfl
  · by_cases hE : jsToLowerCase s = ""
    · simp [leafVis, lowerIfString, jsOrVal, truthy, hE, isVisibilityAllowed, jsToString,
        visibilityLevels, leafRank]
    · by_cases h1 : jsToLowerCase s = "public"
      · simp [leafVis, lowerIfString, jsOrVal, truthy, hE, h1, isVisibilityAllowed, jsToString,
          visibilityLevels, leafRank]
      · by_cases h2 : jsToLowerCase s = "protected"
        · simp [leafVis, lowerIfString, jsOrVal, truthy, hE, h1, h2, isVisibilityAllowed,
            jsToString, visibilityLevels, leafRank]
        · by_cases h3 : jsToLowerCase s = "private"
          · simp [leafVis, lowerIfString, jsOrVal, truthy, hE, h1, h2, h3, isVisibilityAllowed,
              jsToString, visibilityLevels, leafRank]
          · simp [leafVis, lowerIfString, jsOrVal, truthy, hE, h1, h2, h3, isVisibilityAllowed,
              jsToString, visibilityLevels, leafRank]
  · simp [leafVis, lowerIfString, jsOrVal, truthy, isVisibilityAllowed, jsToString,
      visibilityLevels, leafRank]
  · simp [leafVis, lowerIfString, jsOrVal, truthy, isVisibilityAllowed, jsToString,
      visibilityLevels, leafRank]

/-- Every key of the filter output is a key of the visibility tree. -/
theorem filter_key_mem (minVisibility : ConfigVisibility) (vis cfg : List (String × JVal))
    (k : String) (v : JVal) (h : (k, v) ∈ filterByVisibilityKeys minVisibility vis cfg) :
    k ∈ vis.map Prod.fst := by
  induction vis, cfg using filterByVisibilityKeys.induct minVisibility with
  | case1 cfg => simp only [filterByVisibilityKeys] at h; exact absurd h (List.not_mem_nil _)
  | case2 key rest configData visChild childConfig hget fc hempty ihchild ihrest =>
    simp only [filterByVisibilityKeys, hget, hempty, if_true] at h
    simp only [List.map_cons, List.mem_cons]
    exact Or.inr (ihrest h)
  | case3 key rest configData visChild childConfig hget fc hnonempty ihchild ihrest =>
    simp only [filterByVisibilityKeys, hget] at h
    rw [if_neg hnonempty] at h
    simp only [List.map_cons, List.mem_cons]
    rcases List.mem_cons.mp h with hh | ht
    · exact Or.inl (congrArg Prod.fst hh)
    · exact Or.inr (ihrest ht)
  | case4 key rest configData visChild hnotobj ihrest =>
    rw [filterByVisibilityKeys.eq_2] at h
    simp only [List.map_cons, List.mem_cons]
    cases hg : getProp configData key with
    | vobj cc => exact (hnotobj cc hg).elim
    | vnull => rw [hg] at h; exact Or.inr (ihrest h)
    | vundef => rw [hg] at h; exact Or.inr (ihrest h)
    | vbool b => rw [hg] at h; exact Or.inr (ihrest h)
    | vnum n => rw [hg] at h; exact Or.inr (ihrest h)
    | vstr s => rw [hg] at h; exact Or.inr (ihrest h)
    | varr xs => rw [hg] at h; exact Or.inr (ihrest h)
  | case5 key visValue rest configData hallow hnotobj ihrest =>
    rw [filterByVisibilityKeys.eq_3 _ _ _ _ _ hnotobj, if_pos hallow] at h
    simp only [List.map_cons, List.mem_cons]
    rcases List.mem_cons.mp h with hh | ht
    · exact Or.inl (congrArg Prod.fst hh)
    · exact Or.inr (ihrest ht)
  | case6 key visValue rest configData hdisallow hnotobj ihrest =>
    rw [filterByVisibilityKeys.eq_3 _ _ _ _ _ hnotobj, if_neg hdisallow] at h
    simp only [List.map_cons, List.mem_cons]
    exact Or.inr (ihrest h)

/-- Membership characterization for a leaf-labelled key of the visibility
tree: with distinct visibility keys, a key whose value is a string label or
a missing label appears in the filter output iff its specification rank
meets the minimum level, and in that case it carries `configData[key] ??
null`. -/
theorem filter_leaf_mem (minVisibility : ConfigVisibility) (vis cfg : List (String × JVal))
    (k : String) (visValue : JVal)
    (hmem : (k, visValue) ∈ vis) (hnodup : (vis.map Prod.fst).Nodup)
    (hshape : (∃ s, visValue = .vstr s) ∨ visValue = .vnull ∨ visValue = .vundef) :
    ((∃ v, (k, v) ∈ filterByVisibilityKeys minVisibility vis cfg) ↔
       ∃ r, leafRank visValue = some r ∧ minLevelNat minVisibility ≤ r)
    ∧ ∀ v, (k, v) ∈ filterByVisibilityKeys minVisibility vis cfg →
       v = jsCoalesceNull (getProp cfg k) := by
  have hnotobj0 : ∀ fs, visValue = JVal.vobj fs → False := by
    rcases hshape with ⟨s, rfl⟩ | rfl | rfl <;> intro fs h <;> cases h
  induction vis, cfg using filterByVisibilityKeys.induct minVisibility with
  | case1 cfg => exact absurd hmem (List.not_mem_nil _)
  | case2 key rest configData visChild childConfig hget fc hempty ihchild ihrest =>
    have hmem' : (k, visValue) ∈ rest := by
      rcases List.mem_cons.mp hmem with hh | ht
      · exact ((hnotobj0 visChild (congrArg Prod.snd hh)).elim)
      · exact ht
    have hnd : (∀ x, (key, x) ∉ rest) ∧ (rest.map Prod.fst).Nodup := by
      simpa using hnodup
    have := ihrest hmem' hnd.2
    simpa only [filterByVisibilityKeys, hget, hempty, if_true] using this
  | case3 key rest configData visChild childConfig hget fc hnonempty ihchild ihrest =>
    have hmem' : (k, visValue) ∈ rest := by
      rcases List.mem_cons.mp hmem with hh | ht
      · exact ((hnotobj0 visChild (congrArg Prod.snd hh)).elim)
      · exact ht
    have hnd : (∀ x, (key, x) ∉ rest) ∧ (rest.map Prod.fst).Nodup := by
      simpa using hnodup
    have hknek : k ≠ key := by
      intro hkk
      exact hnd.1 visValue (hkk ▸ hmem')
    have ih := ihrest hmem' hnd.2
    have heq : filterByVisibilityKeys minVisibility ((key, JVal.vobj visChild) :: rest) configData
        = (key, JVal.vobj (filterByVisibilityKeys minVisibility visChild childConfig)) ::
            filterByVisibilityKeys minVisibility rest configData := by
      simp only [filterByVisibilityKeys, hget]
      rw [if_neg hnonempty]
    rw [heq]
    constructor
    · rw [← ih.1]
      constructor
      · rintro ⟨v, hv⟩
        rcases List.mem_cons.mp hv with hh | ht
        · exact (hknek (congrArg Prod.fst hh)).elim
        · exact ⟨v, ht⟩
      · rintro ⟨v, hv⟩
        exact ⟨v, List.mem_cons.mpr (Or.inr hv)⟩
    · intro v hv
      rcases List.mem_cons.mp hv with hh | ht
      · exact (hknek (congrArg Prod.fst hh)).elim
      · exact ih.2 v ht
  | case4 key rest configData visChild hnotobj ihrest =>
    have hmem' : (k, visValue) ∈ rest := by
      rcases List.mem_cons.mp hmem with hh | ht
      · exact ((hnotobj0 visChild (congrArg Prod.snd hh)).elim)
      · exact ht
    have hnd : (∀ x, (key, x) ∉ rest) ∧ (rest.map Prod.fst).Nodup := by
      simpa using hnodup
    have heq : filterByVisibilityKeys minVisibility ((key, JVal.vobj visChild) :: rest) configData
        = filterByVisibilityKeys minVisibility rest configData := by
      rw [filterByVisibilityKeys.eq_2]
      cases hg : getProp configData key with
      | vobj cc => exact (hnotobj cc hg).elim
      | vnull => rfl
      | vundef => rfl
      | vbool b => rfl
      | vnum n => rfl
      | vstr s => rfl
      | varr xs => rfl
    rw [heq]
    exact ihrest hmem' hnd.2
  | case5 key visValue0 rest configData hallow hnotobj ihrest =>
    have hnd : (∀ x, (key, x) ∉ rest) ∧ (rest.map Prod.fst).Nodup := by
      simpa using hnodup
    have hkeynotrest : key ∈ rest.map Prod.fst → False := by
      intro hk
      rcases List.mem_map.mp hk with ⟨p, hp, hfst⟩
      exact hnd.1 p.2 (by rw [← hfst]; exact hp)
    have heq : filterByVisibilityKeys minVisibility ((key, visValue0) :: rest) configData
        = (key, jsCoalesceNull (getProp configData key)) ::
            filterByVisibilityKeys minVisibility rest configData := by
      rw [filterByVisibilityKeys.eq_3 _ _ _ _ _ hnotobj, if_pos hallow]
    rw [heq]
    rcases List.mem_cons.mp hmem with hh | ht
    · have hkk : k = key := congrArg Prod.fst hh
      have hvv : visValue = visValue0 := congrArg Prod.snd hh
      constructor
      · constructor
        · intro _
          rw [← leafAllowed_iff_rank visValue minVisibility hshape, hvv]
          exact hallow
        · intro _
          exact ⟨jsCoalesceNull (getProp configData key), by rw [hkk]; exact List.mem_cons_self _ _⟩
      · intro v hv
        rcases List.mem_cons.mp hv with hh2 | ht2
        · rw [hkk]
          exact congrArg Prod.snd hh2
        · exact (hkeynotrest (hkk ▸ filter_key_mem minVisibility rest configData k v ht2)).elim
    · have hknek : k ≠ key := by
        intro hkk
        exact hnd.1 visValue (hkk ▸ ht)
      have ih := ihrest ht hnd.2
      constructor
      · rw [← ih.1]
        constructor
        · rintro ⟨v, hv⟩
          rcases List.mem_cons.mp hv with hh2 | ht2
          · exact (hknek (congrArg Prod.fst hh2)).elim
          · exact ⟨v, ht2⟩
        · rintro ⟨v, hv⟩
          exact ⟨v, List.mem_cons.mpr (Or.inr hv)⟩
      · intro v hv
        rcases List.mem_cons.mp hv with hh2 | ht2
        · exact (hknek (congrArg Prod.fst hh2)).elim
        · exact ih.2 v ht2
  | case6 key visValue0 rest configData hdisallow hnotobj ihrest =>
    have hnd : (∀ x, (key, x) ∉ rest) ∧ (rest.map Prod.fst).Nodup := by
      simpa using hnodup
    have heq : filterByVisibilityKeys minVisibility ((key, visValue0) :: rest) configData
        = filterByVisibilityKeys minVisibility rest configData := by
      rw [filterByVisibilityKeys.eq_3 _ _ _ _ _ hnotobj, if_neg hdisallow]
    rw [heq]
    rcases List.mem_cons.mp hmem with hh | ht
    · have hkk : k = key := congrArg Prod.fst hh
      have hvv : visValue = visValue0 := congrArg Prod.snd hh
      have hnomem : ∀ v, (k, v) ∈ filterByVisibilityKeys minVisibility rest configData → False := by
        intro v hv
        have hk := filter_key_mem minVisibility rest configData k v hv
        rcases List.mem_map.mp hk with ⟨⟨k2, v2⟩, hp, rfl⟩
        exact hnd.1 v2 (hkk ▸ hp)
      constructor
      · constructor
        · rintro ⟨v, hv⟩
          exact (hnomem v hv).elim
        · intro hr
          rw [← leafAllowed_iff_rank visValue minVisibility hshape, hvv] at hr
          exact absurd hr hdisallow
      · intro v hv
        exact (hnomem v hv).elim
    · exact ihrest ht hnd.2

theorem mapLeafCase_not_vobj (f : String → String) (v : JVal)
    (h : ∀ fs, v = JVal.vobj fs → False) :
    ∀ fs, mapLeafCase f v = JVal.vobj fs → False := by
  cases v with
  | vobj fs => exact (h fs rfl).elim
  | vstr s => intro fs hf; rw [mapLeafCase] at hf; cases hf
  | vnull => intro fs hf; simp [mapLeafCase] at hf
  | vundef => intro fs hf; simp [mapLeafCase] at hf
  | vbool b => intro fs hf; simp [mapLeafCase] at hf
  | vnum n => intro fs hf; simp [mapLeafCase] at hf
  | varr xs => intro fs hf; simp [mapLeafCase] at hf

theorem leafVis_mapLeafCase (f : String → String)
    (hf : ∀ s, jsToLowerCase (f s) = jsToLowerCase s) (v : JVal)
    (h : ∀ fs, v = JVal.vobj fs → False) :
    leafVis (mapLeafCase f v) = leafVis v := by
  cases v with
  | vobj fs => exact (h fs rfl).elim
  | vstr s => simp only [mapLeafCase, leafVis, lowerIfString, hf]
  | vnull => simp [mapLeafCase]
  | vundef => simp [mapLeafCase]
  | vbool b => simp [mapLeafCase]
  | vnum n => simp [mapLeafCase]
  | varr xs => simp [mapLeafCase]

/-- Changing only the letter case of string leaf labels of the visibility
tree does not change the filter output. -/
theorem filter_mapLeafCase (f : String → String)
    (hf : ∀ s, jsToLowerCase (f s) = jsToLowerCase s)
    (minVisibility : ConfigVisibility) (vis cfg : List (String × JVal)) :
    filterByVisibilityKeys minVisibility (mapLeafCaseFields f vis) cfg
      = filterByVisibilityKeys minVisibility vis cfg := by
  induction vis, cfg using filterByVisibilityKeys.induct minVisibility with
  | case1 cfg => rw [mapLeafCaseFields]
  | case2 key rest configData visChild childConfig hget fc hempty ihchild ihrest =>
    rw [mapLeafCaseFields, mapLeafCase]
    simp only [filterByVisibilityKeys, hget, ihchild, hempty, if_true]
    exact ihrest
  | case3 key rest configData visChild childConfig hget fc hnonempty ihchild ihrest =>
    rw [mapLeafCaseFields, mapLeafCase]
    simp only [filterByVisibilityKeys, hget, ihchild]
    rw [if_neg hnonempty, if_neg hnonempty, ihrest]
  | case4 key rest configData visChild hnotobj ihrest =>
    rw [mapLeafCaseFields, mapLeafCase]
    rw [filterByVisibilityKeys.eq_2, filterByVisibilityKeys.eq_2]
    cases hg : getProp configData key with
    | vobj cc => exact (hnotobj cc hg).elim
    | vnull => exact ihrest
    | vundef => exact ihrest
    | vbool b => exact ihrest
    | vnum n => exact ihrest
    | vstr s => exact ihrest
    | varr xs => exact ihrest
  | case5 key visValue rest configData hallow hnotobj ihrest =>
    rw [mapLeafCaseFields]
    rw [filterByVisibilityKeys.eq_3 _ _ _ _ _ (mapLeafCase_not_vobj f visValue hnotobj),
      filterByVisibilityKeys.eq_3 _ _ _ _ _ hnotobj]
    rw [leafVis_mapLeafCase f hf visValue hnotobj, if_pos hallow, if_pos hallow, ihrest]
  | case6 key visValue rest configData hdisallow hnotobj ihrest =>
    rw [mapLeafCaseFields]
    rw [filterByVisibilityKeys.eq_3 _ _ _ _ _ (mapLeafCase_not_vobj f visValue hnotobj),
      filterByVisibilityKeys.eq_3 _ _ _ _ _ hnotobj]
    rw [leafVis_mapLeafCase f hf visValue hnotobj, if_neg hdisallow, if_neg hdisallow, ihrest]

theorem mapGet_mapSet_self {α : Type} (m : List (String × α)) (key : String) (v : α) :
    mapGet (mapSet m key v) key = some v := by
  induction m with
  | nil => simp [mapSet, mapGet]
  | cons p rest ih =>
    cases p with
    | mk k w =>
      by_cases hk : k = key
      · simp [mapSet, mapGet, hk]
      · simp [mapSet, mapGet, hk, ih]

theorem mapDelete_length {α : Type} (m : List (String × α)) (key : String) (v : α)
    (h : mapGet m key = some v) : (mapDelete m key).length + 1 = m.length := by
  induction m with
  | nil => simp [mapGet] at h
  | cons p rest ih =>
    cases p with
    | mk k w =>
      by_cases hk : k = key
      · simp [mapDelete, hk]
      · simp only [mapGet, if_neg hk] at h
        simp [mapDelete, hk, ih h]

/-- C1 (as stated, refuted): with config `{a: {b: 1}}` and visibility
`{a: "public"}` at minimum level `public`, the filter includes the whole
config value of `a` verbatim, so the nested key `b` appears in the output
although the visibility tree has no key at the corresponding position
(`a` is a leaf label there): strict coverage is violated. -/
theorem filter_nested_key_not_covered_cex :
    filterConfigByVisibility [("a", .vobj [("b", .vnum 1)])]
        (.vobj [("a", .vstr "public")]) .publicVis
      = [("a", .vobj [("b", .vnum 1)])] ∧
    strictCoveredBy
        (filterConfigByVisibility [("a", .vobj [("b", .vnum 1)])]
          (.vobj [("a", .vstr "public")]) .publicVis)
        [("a", .vstr "public")]
      = false := by
  constructor
  · simp [filterConfigByVisibility, filterByVisibilityKeys, jsEntries, jsOrVal, truthy,
      leafVis, lowerIfString, jsToLowerCase, isVisibilityAllowed, jsToString,
      visibilityLevels, minLevelNat, getProp, jsCoalesceNull]
  · simp [filterConfigByVisibility, filterByVisibilityKeys, jsEntries, jsOrVal, truthy,
      leafVis, lowerIfString, jsToLowerCase, isVisibilityAllowed, jsToString,
      visibilityLevels, minLevelNat, getProp, jsCoalesceNull,
      strictCoveredBy, findStrict, strictMatch]

/-- C1 (amended): for every configuration object, visibility tree and
minimum level, every key of the filter output produced while the
visibility tree is still a nested object is a key of the visibility tree
at the corresponding position; a key admitted through a leaf visibility
label carries the raw config value verbatim, so config sub-keys below a
leaf-annotated key appear without their own annotations. -/
theorem filter_output_covered_by_visibility (config visFields : List (String × JVal))
    (minVisibility : ConfigVisibility) :
    coveredBy (filterConfigByVisibility config (.vobj visFields) minVisibility) visFields
      = true := by
  have h : filterConfigByVisibility config (.vobj visFields) minVisibility
      = filterByVisibilityKeys minVisibility visFields config := rfl
  rw [h]
  exact filter_coveredBy minVisibility visFields config

/-- C2 (as stated, refuted): the claim says an unrecognized label is treated
exactly as `private` and hence included at minimum level `private`; but
with config `{a: 1}` and visibility `{a: "internal"}` the lookup
`levels["internal"]` is `undefined` and `undefined >= 1` is `false` in JS,
so the field is excluded even at minimum level `private`. -/
theorem unrecognized_label_excluded_cex :
    filterConfigByVisibility [("a", .vnum 1)] (.vobj [("a", .vstr "internal")]) .privateVis
      = [] := by
  simp [filterConfigByVisibility, filterByVisibilityKeys, jsEntries, jsOrVal, truthy,
    leafVis, lowerIfString, jsToLowerCase, isVisibilityAllowed, jsToString,
    visibilityLevels, minLevelNat, getProp, jsCoalesceNull]

/-- C2 (amended): for a visibility key with distinct sibling keys whose
value is a string label or a missing (`null`/`undefined`) label, the key
appears in the filter output iff the label's rank meets the minimum level
under `private(1) < protected(2) < public(3)`, where labels are compared
after lowercasing, a falsy (empty or missing) label defaults to `private`,
and an unrecognized truthy label has no rank and is never included (even at
minimum level `private`); an included key carries the config value, or
`null` when absent from config. -/
theorem filter_leaf_label_inclusion (minVisibility : ConfigVisibility)
    (visFields cfg : List (String × JVal)) (k : String) (visValue : JVal)
    (hmem : (k, visValue) ∈ visFields) (hnodup : (visFields.map Prod.fst).Nodup)
    (hshape : (∃ s, visValue = .vstr s) ∨ visValue = .vnull ∨ visValue = .vundef) :
    ((∃ v, (k, v) ∈ filterConfigByVisibility cfg (.vobj visFields) minVisibility) ↔
       ∃ r, leafRank visValue = some r ∧ minLevelNat minVisibility ≤ r)
    ∧ ∀ v, (k, v) ∈ filterConfigByVisibility cfg (.vobj visFields) minVisibility →
       v = jsCoalesceNull (getProp cfg k) := by
  have h : filterConfigByVisibility cfg (.vobj visFields) minVisibility
      = filterByVisibilityKeys minVisibility visFields cfg := rfl
  rw [h]
  exact filter_leaf_mem minVisibility visFields cfg k visValue hmem hnodup hshape

/-- Witness for C2 (amended): at minimum level `private`, with visibility
`{a: "public"}` the key `a` is included (rank 3 ≥ 1) with value `null`
since it is absent from the empty config. -/
theorem filter_leaf_label_inclusion_witness :
    ∃ v, ("a", v) ∈ filterConfigByVisibility [] (.vobj [("a", .vstr "public")]) .privateVis := by
  refine (filter_leaf_label_inclusion .privateVis [("a", .vstr "public")] [] "a"
    (.vstr "public") (by simp) (by simp) (Or.inl ⟨"public", rfl⟩)).1.mpr ?_
  refine ⟨3, ?_, by decide⟩
  simp [leafRank, lowerIfString, jsToLowerCase]

/-- C3: for every configuration object, `filterPublicConfig` raises exactly
when the supplied visibility tree is absent (`null`/`undefined`) or an
empty object, and otherwise returns `filterConfigByVisibility` of the
config at minimum level `public`. -/
theorem filterPublicConfig_contract (cfg : List (String × JVal)) (vis : JVal)
    (hshape : vis = .vnull ∨ vis = .vundef ∨ ∃ fs, vis = .vobj fs) :
    ((∃ msg, filterPublicConfig cfg vis = .error msg) ↔
       (vis = .vnull ∨ vis = .vundef ∨ vis = .vobj [])) ∧
    (∀ fs, vis = .vobj fs → fs ≠ [] →
       filterPublicConfig cfg vis = .ok (filterConfigByVisibility cfg vis .publicVis)) := by
  rcases hshape with rfl | rfl | ⟨fs, rfl⟩
  · constructor
    · simp [filterPublicConfig, truthy]
    · intro fs h
      cases h
  · constructor
    · simp [filterPublicConfig, truthy]
    · intro fs h
      cases h
  · cases fs with
    | nil =>
      constructor
      · simp [filterPublicConfig, truthy, jsTypeofObject, jsKeysLength]
      · intro fs h hne
        injection h with h1
        exact absurd h1.symm hne
    | cons p rest =>
      constructor
      · simp [filterPublicConfig, truthy, jsTypeofObject, jsKeysLength]
      · intro fs h hne
        simp [filterPublicConfig, truthy, jsTypeofObject, jsKeysLength]

/-- Witness for C3: a null visibility tree raises; a one-key visibility tree
filters at `public`. -/
theorem filterPublicConfig_contract_witness :
    (∃ msg, filterPublicConfig [("x", .vnum 1)] .vnull = .error msg) ∧
    filterPublicConfig [("x", .vnum 1)] (.vobj [("x", .vstr "public")])
      = .ok (filterConfigByVisibility [("x", .vnum 1)]
          (.vobj [("x", .vstr "public")]) .publicVis) := by
  constructor
  · exact (filterPublicConfig_contract [("x", .vnum 1)] .vnull (Or.inl rfl)).1.mpr (Or.inl rfl)
  · exact (filterPublicConfig_contract [("x", .vnum 1)] (.vobj [("x", .vstr "public")])
      (Or.inr (Or.inr ⟨_, rfl⟩))).2 _ rfl (by simp)

/-- C4: for every behavior of the extractor, cache and fetch collaborators
(including any of them throwing), `resolveTenant` returns normally with a
tenant or `null`; any exception of the body is caught at the top level and
normalized to `null`. -/
theorem resolveTenant_never_throws (c : Collaborators) :
    (∃ t, resolveTenant c = .ok t) ∧
    (∀ e, (resolveTenantBody c).1 = .error e → resolveTenant c = .ok none) := by
  constructor
  · cases h : (resolveTenantBody c).1 with
    | error e => exact ⟨none, by simp [resolveTenant, h]⟩
    | ok t => exact ⟨t, by simp [resolveTenant, h]⟩
  · intro e he
    simp [resolveTenant, he]

/-- Witness for C4: when the extractor throws, the orchestrator returns
`null` rather than propagating. -/
theorem resolveTenant_never_throws_witness :
    resolveTenant
        { extractIdentifier := .error ⟨"boom"⟩
          cacheGet := fun _ => .ok none
          fetchTenant := fun _ => .ok ⟨none, none⟩
          cacheSet := fun _ _ => .ok () }
      = .ok none := by
  exact (resolveTenant_never_throws _).2 ⟨"boom"⟩ rfl

/-- C5: whenever the extracted identifier is truthy and the cache returns a
tenant for it, the orchestrator returns that cached record and the fetch
collaborator is never invoked. -/
theorem cache_hit_no_fetch (c : Collaborators) (ident : String) (t : Tenant)
    (hex : c.extractIdentifier = .ok (some ident)) (hne : ident ≠ "")
    (hhit : c.cacheGet ident = .ok (some t)) :
    resolveTenant c = .ok (some t) ∧
    ∀ i, ResolveEvent.fetchEv i ∉ (resolveTenantBody c).2 := by
  have hb : resolveTenantBody c = (.ok (some t), [.cacheGetEv ident]) := by
    simp [resolveTenantBody, hex, hne, hhit]
  refine ⟨by simp [resolveTenant, hb], ?_⟩
  intro i
  simp [hb]

/-- Witness for C5: a concrete tenant cached under `acme` is returned and no
fetch event occurs. -/
theorem cache_hit_no_fetch_witness :
    resolveTenant
        { extractIdentifier := .ok (some "acme")
          cacheGet := fun k =>
            if k = "acme" then
              .ok (some (.mk "t1" "Acme" "acme" none true false [] "" "" none))
            else .ok none
          fetchTenant := fun _ => .ok ⟨none, none⟩
          cacheSet := fun _ _ => .ok () }
      = .ok (some (.mk "t1" "Acme" "acme" none true false [] "" "" none)) := by
  exact (cache_hit_no_fetch _ "acme" (.mk "t1" "Acme" "acme" none true false [] "" "" none)
    rfl (by decide) (by simp)).1

/-- C6: cache policy invariants.  Under `lazy`, `set` stores an entry
expiring at insertion time plus the configured TTL (seconds, stored as
`ttlSeconds * 1000` milliseconds on the millisecond clock); a `get` before
that instant returns the stored tenant; a `get` after it returns absent and
removes the entry, decreasing the entry count by one.  Under `preload`,
`set` stores an unbounded entry.  Under `disabled`, `set` never creates an
entry and `get` always returns absent. -/
theorem tenantCache_policy_spec :
    (∀ (s : TenantCacheService) (now : Nat) (k : String) (t : Tenant), s.mode = .lazy →
       mapGet (s.set now k t).cache k = some ⟨t, .fin (now + s.ttlSeconds * 1000)⟩) ∧
    (∀ (s : TenantCacheService) (now now2 : Nat) (k : String) (t : Tenant), s.mode = .lazy →
       now2 < now + s.ttlSeconds * 1000 → ((s.set now k t).get now2 k).1 = some t) ∧
    (∀ (s : TenantCacheService) (now now2 : Nat) (k : String) (t : Tenant), s.mode = .lazy →
       now + s.ttlSeconds * 1000 < now2 →
       ((s.set now k t).get now2 k).1 = none ∧
       ((s.set now k t).get now2 k).2.cache.length + 1 = (s.set now k t).cache.length) ∧
    (∀ (s : TenantCacheService) (now : Nat) (k : String) (t : Tenant), s.mode = .preload →
       mapGet (s.set now k t).cache k = some ⟨t, .inf⟩) ∧
    (∀ (s : TenantCacheService) (now : Nat) (k : String) (t : Tenant), s.mode = .disabled →
       s.set now k t = s) ∧
    (∀ (s : TenantCacheService) (now : Nat) (k : String), s.mode = .disabled →
       (s.get now k).1 = none) := by
  refine ⟨?_, ?_, ?_, ?_, ?_, ?_⟩
  · intro s now k t hm
    simp [TenantCacheService.set, TenantCacheService.ttl, hm, mapGet_mapSet_self]
  · intro s now now2 k t hm hlt
    simp [TenantCacheService.set, TenantCacheService.get, TenantCacheService.ttl, hm,
      mapGet_mapSet_self, expiryPast]
    rw [if_neg (show ¬ (now + s.ttlSeconds * 1000 < now2) by omega)]
  · intro s now now2 k t hm hgt
    have hset : mapGet (s.set now k t).cache k
        = some ⟨t, .fin (now + s.ttlSeconds * 1000)⟩ := by
      simp [TenantCacheService.set, TenantCacheService.ttl, hm, mapGet_mapSet_self]
    have hmode : (s.set now k t).mode = CacheMode.lazy := by
      simp [TenantCacheService.set, hm]
    have hpast : expiryPast now2 (Expiry.fin (now + s.ttlSeconds * 1000)) = true := by
      simp only [expiryPast, decide_eq_true_eq]
      omega
    constructor
    · simp only [TenantCacheService.get, hmode, hset]
      simp [hpast]
    · simp only [TenantCacheService.get, hmode, hset]
      simp only [hpast]
      simp
      exact mapDelete_length _ _ _ hset
  · intro s now k t hm
    simp [TenantCacheService.set, hm, mapGet_mapSet_self]
  · intro s now k t hm
    simp [TenantCacheService.set, hm]
  · intro s now k hm
    simp [TenantCacheService.get, hm]

/-- Witness for C6: a lazy cache with TTL 1 second: a hit at 500 ms, a miss
at 2000 ms with the entry removed; a disabled cache never stores. -/
theorem tenantCache_policy_spec_witness :
    ((TenantCacheService.mk .lazy 1 []).set 0 "k"
        (.mk "t1" "Acme" "acme" none true false [] "" "" none)
      |>.get 500 "k").1 = some (.mk "t1" "Acme" "acme" none true false [] "" "" none) ∧
    ((TenantCacheService.mk .lazy 1 []).set 0 "k"
        (.mk "t1" "Acme" "acme" none true false [] "" "" none)
      |>.get 2000 "k").1 = none ∧
    (TenantCacheService.mk .disabled 1 []).set 0 "k"
        (.mk "t1" "Acme" "acme" none true false [] "" "" none)
      = TenantCacheService.mk .disabled 1 [] := by
  refine ⟨?_, ?_, ?_⟩
  · exact tenantCache_policy_spec.2.1 (TenantCacheService.mk .lazy 1 []) 0 500 "k"
      (.mk "t1" "Acme" "acme" none true false [] "" "" none) rfl (by decide)
  · exact (tenantCache_policy_spec.2.2.1 (TenantCacheService.mk .lazy 1 []) 0 2000 "k"
      (.mk "t1" "Acme" "acme" none true false [] "" "" none) rfl (by decide)).1
  · exact tenantCache_policy_spec.2.2.2.2.1 (TenantCacheService.mk .disabled 1 []) 0 "k"
      (.mk "t1" "Acme" "acme" none true false [] "" "" none) rfl

/-- C7 (as stated, refuted): under the `render` not-found policy the claim
says the merge stage still sets the per-request tenant field explicitly to
`null`; but `enrichWindowBag` returns early for `render` and never reaches
the handler branch that would do so — the request context comes back
entirely untouched (here: with no `quvelContext` at all), while the
handler branch, had it run, would have produced an explicit `null`. -/
theorem render_policy_skips_null_marking_cex :
    enrichWindowBagNullTenant 0 (some .render) none ⟨none⟩ ([] : WinBag)
      = .ok (⟨none⟩, []) ∧
    handleTenantNotFound 0 (some .render) none ⟨none⟩
      = .ok ⟨some ⟨0, some none, none⟩⟩ := by
  exact ⟨rfl, rfl⟩

/-- C7 (amended): for every request resolving to a null tenant, the merge
stage itself leaves both configuration views untouched: under the `404`
or absent policy it throws the `Tenant not found` error carrying code 404;
under `redirect` it throws the redirect error carrying the configured URL
and `action.code || 302`; and under the `render` policy it returns
immediately with both views unchanged — without marking the per-request
tenant field (not even as explicit `null`). -/
theorem null_tenant_leaves_views_untouched (now : Nat)
    (action : Option TenantNotFoundAction)
    (handler : Option (ReqCtx → Except ThrownError ReqCtx)) (req : ReqCtx) (bag : WinBag) :
    (action = none ∨ action = some .notFound404 →
      enrichWindowBagNullTenant now action handler req bag
        = .error ⟨"Tenant not found", some 404, none⟩) ∧
    (∀ u c, action = some (.redirect u c) →
      enrichWindowBagNullTenant now action handler req bag
        = .error ⟨"Redirecting to tenant not found page", some (jsOrInt c 302), some u⟩) ∧
    (action = some .render →
      enrichWindowBagNullTenant now action handler req bag = .ok (req, bag)) := by
  refine ⟨?_, ?_, ?_⟩
  · rintro (rfl | rfl)
    · simp [enrichWindowBagNullTenant, handleTenantNotFound, Except.map]
    · simp [enrichWindowBagNullTenant, handleTenantNotFound, Except.map]
  · rintro u c rfl
    simp [enrichWindowBagNullTenant, handleTenantNotFound, Except.map]
  · rintro rfl
    simp [enrichWindowBagNullTenant]

/-- Witness for C7 (amended): concretely, the `404` policy throws the 404
error, the `redirect` policy throws the redirect error with its URL and
code, and the `render` policy returns both views unchanged. -/
theorem null_tenant_leaves_views_untouched_witness :
    enrichWindowBagNullTenant 1 (some .notFound404) none ⟨none⟩ ([] : WinBag)
        = .error ⟨"Tenant not found", some 404, none⟩ ∧
    enrichWindowBagNullTenant 1 (some (.redirect "/missing" none)) none ⟨none⟩ ([] : WinBag)
        = .error ⟨"Redirecting to tenant not found page", some 302, some "/missing"⟩ ∧
    enrichWindowBagNullTenant 1 (some .render) none ⟨none⟩ ([] : WinBag)
        = .ok (⟨none⟩, []) := by
  refine ⟨?_, ?_, ?_⟩
  · exact (null_tenant_leaves_views_untouched 1 (some .notFound404) none ⟨none⟩ []).1
      (Or.inr rfl)
  · exact (null_tenant_leaves_views_untouched 1 (some (.redirect "/missing" none)) none
      ⟨none⟩ []).2.1 "/missing" none rfl
  · exact (null_tenant_leaves_views_untouched 1 (some .render) none ⟨none⟩ []).2.2 rfl

/-- C8 (as stated, refuted): the claim says a derived host of `a.b.com`
yields an absent identifier under `subdomain(level=0)`; but `a.b.com`
splits into three labels, `3 ≤ 2` fails and `0 < 3 − 2` holds, so the code
returns label 0, i.e. `"a"`. -/
theorem subdomain_level0_three_labels_cex :
    extractIdentifier ⟨.subdomain, none, none, some 0⟩
        ⟨none, none, "a.b.com", "/", "/", []⟩ = some "a" := by
  decide

/-- C8 (amended): under the subdomain strategy at level 0, a derived host
with at most two labels (e.g. `b.com`) yields an absent identifier; a
derived host of `a.b.com` (three labels) yields `"a"`; and a derived host
of `x.a.b.com` yields `"x"`. -/
theorem subdomain_level0_extraction (req : Req) :
    (extractDomain req = "b.com" →
      extractIdentifier ⟨.subdomain, none, none, some 0⟩ req = none) ∧
    (extractDomain req = "a.b.com" →
      extractIdentifier ⟨.subdomain, none, none, some 0⟩ req = some "a") ∧
    (extractDomain req = "x.a.b.com" →
      extractIdentifier ⟨.subdomain, none, none, some 0⟩ req = some "x") := by
  refine ⟨?_, ?_, ?_⟩ <;> intro h <;>
    simp only [extractIdentifier, extractSubdomain, jsOrInt, h] <;> decide

/-- Witness for C8 (amended): concrete requests whose only host information
is the resolved hostname. -/
theorem subdomain_level0_extraction_witness :
    extractIdentifier ⟨.subdomain, none, none, some 0⟩
        ⟨none, none, "b.com", "/", "/", []⟩ = none ∧
    extractIdentifier ⟨.subdomain, none, none, some 0⟩
        ⟨none, none, "x.a.b.com", "/", "/", []⟩ = some "x" := by
  constructor
  · exact (subdomain_level0_extraction ⟨none, none, "b.com", "/", "/", []⟩).1 (by decide)
  · exact (subdomain_level0_extraction ⟨none, none, "x.a.b.com", "/", "/", []⟩).2.2 (by decide)

/-- C9: `filterConfigByVisibility` is invariant under changing the letter
case of string leaf labels of the visibility tree: any relabelling `f` of
string leaves that preserves the lowercased spelling leaves the filter
output unchanged, for every configuration object and minimum level. -/
theorem filter_label_case_insensitive (f : String → String)
    (hf : ∀ s, jsToLowerCase (f s) = jsToLowerCase s)
    (minVisibility : ConfigVisibility) (cfg visFields : List (String × JVal)) :
    filterConfigByVisibility cfg (.vobj (mapLeafCaseFields f visFields)) minVisibility
      = filterConfigByVisibility cfg (.vobj visFields) minVisibility := by
  have h1 : filterConfigByVisibility cfg (.vobj (mapLeafCaseFields f visFields)) minVisibility
      = filterByVisibilityKeys minVisibility (mapLeafCaseFields f visFields) cfg := rfl
  have h2 : filterConfigByVisibility cfg (.vobj visFields) minVisibility
      = filterByVisibilityKeys minVisibility visFields cfg := rfl
  rw [h1, h2]
  exact filter_mapLeafCase f hf minVisibility visFields cfg

/-- Witness for C9: relabelling `public` as `PUBLIC` leaves the filter
output unchanged on a concrete input. -/
theorem filter_label_case_insensitive_witness :
    filterConfigByVisibility [("a", .vnum 1)] (.vobj [("a", .vstr "PUBLIC")]) .publicVis
      = filterConfigByVisibility [("a", .vnum 1)] (.vobj [("a", .vstr "public")]) .publicVis := by
  have hf : ∀ s, jsToLowerCase (if s = "public" then "PUBLIC" else s) = jsToLowerCase s := by
    intro s
    by_cases h : s = "public"
    · rw [h]
      decide
    · rw [if_neg h]
  have h := filter_label_case_insensitive (fun s => if s = "public" then "PUBLIC" else s) hf
    .publicVis [("a", .vnum 1)] [("a", .vstr "public")]
  have hm : mapLeafCaseFields (fun s => if s = "public" then "PUBLIC" else s)
      [("a", JVal.vstr "public")] = [("a", JVal.vstr "PUBLIC")] := by
    simp [mapLeafCaseFields, mapLeafCase]
  rw [hm] at h
  exact h

/-- C10: the cookie-name builders are pure functions of the tenant value:
they return the tenant's configured custom name when it is a truthy string,
else the `tenant_<id>_…` pattern when the tenant has a truthy id, else the
global default (`laravel_session` / `XSRF-TOKEN`). -/
theorem cookie_name_builders_spec (tenant : Option PublicTenantData) :
    (∀ s, (tenant.bind (fun t => t.config.session)).bind (fun x => x.name) = some s → s ≠ "" →
       createTenantSessionCookieName tenant = s) ∧
    (truthyStr ((tenant.bind (fun t => t.config.session)).bind (fun x => x.name)) = false →
       ∀ t, tenant = some t → t.id ≠ "" →
         createTenantSessionCookieName tenant = "tenant_" ++ t.id ++ "_session") ∧
    (truthyStr ((tenant.bind (fun t => t.config.session)).bind (fun x => x.name)) = false →
       (tenant = none ∨ ∃ t, tenant = some t ∧ t.id = "") →
         createTenantSessionCookieName tenant = "laravel_session") ∧
    (∀ s, (tenant.bind (fun t => t.config.xsrf)).bind (fun x => x.name) = some s → s ≠ "" →
       createTenantXsrfCookieName tenant = s) ∧
    (truthyStr ((tenant.bind (fun t => t.config.xsrf)).bind (fun x => x.name)) = false →
       ∀ t, tenant = some t → t.id ≠ "" →
         createTenantXsrfCookieName tenant = "tenant_" ++ t.id ++ "_xsrf") ∧
    (truthyStr ((tenant.bind (fun t => t.config.xsrf)).bind (fun x => x.name)) = false →
       (tenant = none ∨ ∃ t, tenant = some t ∧ t.id = "") →
         createTenantXsrfCookieName tenant = "XSRF-TOKEN") := by
  refine ⟨?_, ?_, ?_, ?_, ?_, ?_⟩
  · intro s hs hne
    simp [createTenantSessionCookieName, hs, truthyStr, hne]
  · intro hfalse t ht hid
    subst ht
    simp only [Option.some_bind] at hfalse
    cases hname : t.config.session.bind (fun x => x.name) with
    | none => simp [createTenantSessionCookieName, truthyStr, hname, hid]
    | some s =>
      rw [hname] at hfalse
      have hs : s = "" := by
        by_contra hne
        simp [truthyStr, hne] at hfalse
      subst hs
      simp [createTenantSessionCookieName, truthyStr, hname, hid]
  · intro hfalse hcase
    rcases hcase with rfl | ⟨t, rfl, hid⟩
    · simp [createTenantSessionCookieName, truthyStr]
    · simp only [Option.some_bind] at hfalse
      cases hname : t.config.session.bind (fun x => x.name) with
      | none => simp [createTenantSessionCookieName, truthyStr, hname, hid]
      | some s =>
        rw [hname] at hfalse
        have hs : s = "" := by
          by_contra hne
          simp [truthyStr, hne] at hfalse
        subst hs
        simp [createTenantSessionCookieName, truthyStr, hname, hid]
  · intro s hs hne
    simp [createTenantXsrfCookieName, hs, truthyStr, hne]
  · intro hfalse t ht hid
    subst ht
    simp only [Option.some_bind] at hfalse
    cases hname : t.config.xsrf.bind (fun x => x.name) with
    | none => simp [createTenantXsrfCookieName, truthyStr, hname, hid]
    | some s =>
      rw [hname] at hfalse
      have hs : s = "" := by
        by_contra hne
        simp [truthyStr, hne] at hfalse
      subst hs
      simp [createTenantXsrfCookieName, truthyStr, hname, hid]
  · intro hfalse hcase
    rcases hcase with rfl | ⟨t, rfl, hid⟩
    · simp [createTenantXsrfCookieName, truthyStr]
    · simp only [Option.some_bind] at hfalse
      cases hname : t.config.xsrf.bind (fun x => x.name) with
      | none => simp [createTenantXsrfCookieName, truthyStr, hname, hid]
      | some s =>
        rw [hname] at hfalse
        have hs : s = "" := by
          by_contra hne
          simp [truthyStr, hne] at hfalse
        subst hs
        simp [createTenantXsrfCookieName, truthyStr, hname, hid]

/-- Witness for C10: a tenant with a custom session cookie name, a tenant
with only an id, and an absent tenant. -/
theorem cookie_name_builders_spec_witness :
    createTenantSessionCookieName
        (some ⟨"id1", "T", "t", ⟨none, some ⟨some "custom_session"⟩⟩⟩) = "custom_session" ∧
    createTenantSessionCookieName (some ⟨"id1", "T", "t", ⟨none, none⟩⟩)
      = "tenant_id1_session" ∧
    createTenantXsrfCookieName none = "XSRF-TOKEN" := by
  refine ⟨?_, ?_, ?_⟩
  · exact (cookie_name_builders_spec
      (some ⟨"id1", "T", "t", ⟨none, some ⟨some "custom_session"⟩⟩⟩)).1
      "custom_session" rfl (by decide)
  · exact (cookie_name_builders_spec (some ⟨"id1", "T", "t", ⟨none, none⟩⟩)).2.1
      rfl _ rfl (by decide)
  · exact (cookie_name_builders_spec none).2.2.2.2.2 rfl (Or.inl rfl)
